import Mathlib

/-!
# Verification of the trace-web sequence/vision endpoints

Shallow embedding of the core logic of `src/api/sequence.ts` and the vision
endpoint (`src/unnamed/part_000`): the response parser (`safeParseJSON`),
the output validator (`isValidSelection`), the fallback orderer
(`deterministicFallback`), the shot assembler (`buildShots`), the
sequence-planning handler's three exit paths, input normalization, and the
vision endpoint's per-photo loop with its oversize-payload guard.

JavaScript values produced by `JSON.parse` are modelled by an untyped
`Json` inductive; `undefined` is modelled by `Option Json = none`.
`JSON.parse` itself is a platform builtin (an external collaborator per the
spec), so it is a parameter of the embedding: theorems quantify over every
possible strict parser, and concrete scenarios instantiate it with
`demoParse`, which agrees with `JSON.parse` on the specific documents used.
-/

/-- Untyped JSON-like values (the result shape of `JSON.parse` and the
object literals the handler builds). Numbers are modelled as rationals;
the only numeric literals the embedded code produces are 3.8 (= 19/5),
5 and 0.5 (= 1/2), all exactly representable. -/
inductive Json where
  | null : Json
  | bool (b : Bool) : Json
  | num (q : ℚ) : Json
  | str (s : String) : Json
  | arr (elems : List Json) : Json
  | obj (fields : List (String × Json)) : Json

/-- JavaScript truthiness of a value (`undefined` is handled by callers
via `Option`). `NaN` does not arise in the embedded code. -/
def jsTruthy : Json → Bool
  | Json.null => false
  | Json.bool b => b
  | Json.num q => decide (q ≠ 0)
  | Json.str s => decide (s ≠ "")
  | Json.arr _ => true
  | Json.obj _ => true

/-- Plain property access `v.key`: JavaScript throws a `TypeError` when
the receiver is `null` (`undefined` cannot occur here: `JSON.parse` never
yields it); any other non-object receiver is boxed and yields `undefined`
(`none`). `JSON.parse` objects have unique keys, so first-match lookup
agrees with JavaScript. The error string models `error.message` of the
thrown `TypeError` (its exact wording is engine-specific). -/
def jsMember (v : Json) (key : String) : Except String (Option Json) :=
  match v with
  | Json.null =>
    Except.error ("Cannot read properties of null (reading " ++ key ++ ")")
  | Json.obj fields => Except.ok (fields.lookup key)
  | _ => Except.ok none

/-- Optional-chaining access `v?.key` on a possibly-`undefined` receiver:
it never throws — `undefined` and `null` short-circuit to `undefined`, any
other non-object receiver yields `undefined`. -/
def jsMemberChain (v : Option Json) (key : String) : Option Json :=
  match v with
  | some (Json.obj fields) => fields.lookup key
  | _ => none

/-- `a || b` where `a` may be `undefined`: the left value if truthy,
otherwise the default. -/
def jsOr (a : Option Json) (b : Json) : Json :=
  match a with
  | some v => if jsTruthy v then v else b
  | none => b

mutual

/-- `String(v)` coercion. Array rendering follows `Array.prototype.join`,
where `null` elements render empty. The decimal rendering of non-integral
numbers is a platform detail never exercised by the handler's logic (all
ids compared in the claims are strings); integers render exactly. -/
def jsToString : Json → String
  | Json.null => "null"
  | Json.bool true => "true"
  | Json.bool false => "false"
  | Json.num q => if q.den = 1 then toString q.num else toString q
  | Json.str s => s
  | Json.arr elems => String.intercalate "," (jsJoinParts elems)
  | Json.obj _ => "[object Object]"

/-- The parts `Array.prototype.join` concatenates: `null` (and in full
JavaScript also `undefined`, which cannot occur inside parsed JSON)
renders as the empty string. -/
def jsJoinParts : List Json → List String
  | [] => []
  | Json.null :: rest => "" :: jsJoinParts rest
  | e :: rest => jsToString e :: jsJoinParts rest

end

/-- `String(v)` where `v` may be `undefined` (`String(undefined)` is
`"undefined"`). -/
def jsToStringU : Option Json → String
  | some v => jsToString v
  | none => "undefined"

/-! ## Response Parser (`safeParseJSON`, sequence.ts lines 41-50)

The cleaning step is
`jsonString.replace(/```json\n?/g, '').replace(/```\n?/g, '').trim()`:
two *global* literal replacements (each also consuming one optional
newline right after the match) followed by a whitespace trim. -/

/-- Drop a single leading line feed, as the `\n?` at the end of each fence
regex does. -/
def dropLf : List Char → List Char
  | [] => []
  | c :: rest => if c = '\n' then rest else c :: rest

theorem dropLf_length_le (s : List Char) : (dropLf s).length ≤ s.length := by
  cases s with
  | nil => simp [dropLf]
  | cons c rest => simp only [dropLf]; split <;> simp

/-- Global replacement of the literal pattern `p :: ps` (plus one optional
line feed after each match) by the empty string, scanning left to right
exactly as `String.prototype.replace` with a `g`-flag regex does. The
`Nat` argument is structural fuel: each recursive call strictly shortens
the text, so any fuel of at least the text's length — the wrapper passes
exactly that — never runs out (the fuel-exhausted arm returns the rest
unscanned and is unreachable). -/
def stripOcc (p : Char) (ps : List Char) : Nat → List Char → List Char
  | _, [] => []
  | 0, s => s
  | fuel + 1, c :: rest =>
    if (p :: ps).isPrefixOf (c :: rest) then
      stripOcc p ps fuel (dropLf (rest.drop ps.length))
    else
      c :: stripOcc p ps fuel rest

/-- One `.replace(/PAT\n?/g, '')` pass for a non-empty literal pattern. -/
def replaceFence (pat : String) (s : List Char) : List Char :=
  match pat.data with
  | [] => s
  | p :: ps => stripOcc p ps s.length s

/-- The characters `String.prototype.trim` removes (ASCII whitespace; the
further Unicode space characters it also strips never appear here). -/
def jsWhitespace (c : Char) : Bool :=
  c = ' ' || c = '\t' || c = '\n' || c = '\r' || c = '\x0b' || c = '\x0c'

/-- `.trim()`: drop leading and trailing whitespace. -/
def trimChars (s : List Char) : List Char :=
  ((s.dropWhile jsWhitespace).reverse.dropWhile jsWhitespace).reverse

/-- The cleaning step of `safeParseJSON` (sequence.ts line 44). -/
def cleanJsonString (s : String) : String :=
  String.mk (trimChars (replaceFence "```" (replaceFence "```json" s.data)))

/-- `safeParseJSON` (sequence.ts lines 41-50): clean the text, run the
strict parser, and on any parse failure return the caller's fallback.
`JSONparse` is the platform's `JSON.parse`, a parameter of the embedding;
a thrown `SyntaxError` is modelled by `Except.error`. -/
def safeParseJSON (JSONparse : String → Except String Json)
    (jsonString : String) (fallback : Json) : Json :=
  match JSONparse (cleanJsonString jsonString) with
  | Except.ok v => v
  | Except.error _ => fallback

/-! ## Sequence endpoint data model (sequence.ts lines 164-186)

The handler normalizes each raw analysis result into an item whose `id` is
always a string: `String(a.id ?? a.filename ?? idx)`. The `analysis` bag
(subject, mood, composition, visual_energy, best_role) is carried along
only into the prompt payload and is referenced by none of the claims, so
it is omitted from the embedding. -/

/-- A raw entry of `body.analysisResults`, restricted to the fields the
id/filename normalization reads. `none` models `null`/`undefined`; a
provided non-null value is modelled by its `String(...)` coercion. -/
structure RawItem where
  id : Option String
  filename : Option String
deriving DecidableEq

/-- A normalized item (sequence.ts lines 164-174): `id` is always a
string. -/
structure Image where
  id : String
  filename : String
deriving DecidableEq

/-- Normalization of one raw entry at position `idx`:
`id: String(a.id ?? a.filename ?? idx)` and
`filename: a.filename || _image_idx_` (the `||` also replaces an empty
string, which `??` would keep). -/
def normalizeAux : Nat → List RawItem → List Image
  | _, [] => []
  | idx, a :: rest =>
    { id := a.id.getD (a.filename.getD (toString idx)),
      filename :=
        match a.filename with
        | some f => if f = "" then "image_" ++ toString idx else f
        | none => "image_" ++ toString idx } :: normalizeAux (idx + 1) rest

/-- `body.analysisResults.map((a, idx) => ...)` (sequence.ts line 164). -/
def normalizeItems (raws : List RawItem) : List Image :=
  normalizeAux 0 raws

/-! ## Output Validator and Fallback Orderer (sequence.ts lines 55-69) -/

/-- `isValidSelection(orderedIds, images, targetCount)` (lines 55-62).
The candidate comes from untrusted parsed output, so it is an arbitrary
value (`none` = absent/`undefined`). On normalized items the defensive
`String(img.id ?? img.filename ?? images.indexOf(img))` is just `img.id`,
which is always a string; `Set` membership is string equality. -/
def isValidSelection (orderedIds : Option Json) (images : List Image)
    (targetCount : Nat) : Bool :=
  match orderedIds with
  | some (Json.arr ids) =>
    if ids.length ≠ targetCount then false
    else
      ids.all fun id => (images.map Image.id).contains (jsToString id)
  | _ => false

/-- `deterministicFallback(images, targetCount)` (lines 67-69): the first
`targetCount` items in original order. As in the validator, the
`String(img.id ?? img.filename ?? idx)` chain collapses to `img.id` on
normalized items. -/
def deterministicFallback (images : List Image) (targetCount : Nat) : List String :=
  (images.take targetCount).map Image.id

/-! ## Shot assembly (`buildShots`, sequence.ts lines 74-85) -/

/-- The position-quantile role ladder of lines 79-81:
`idx < n*0.2 ? 'opening' : idx < n*0.6 ? 'build' : idx < n*0.9 ? 'turn' :
'resolution'`. The JavaScript comparisons are on IEEE doubles; for every
`n ≤ 200` (the request cap `MAX_IMAGES`) and every integer `idx`, the
double comparisons `idx < n*0.2`, `idx < n*0.6`, `idx < n*0.9` coincide
with the exact rational ones used here (`5*idx < n`, `5*idx < 3*n`,
`10*idx < 9*n`): when `n*0.2` etc. is not an integer it is at least `1/10`
from any integer, far above the rounding error, and when it is an integer
`k` the rounded product is exactly `k` (the accumulated relative error is
below half an ulp of `k` for all `k ≤ 180`). -/
def positionRole (idx n : Nat) : String :=
  if 5 * idx < n then "opening"
  else if 5 * idx < 3 * n then "build"
  else if 10 * idx < 9 * n then "turn"
  else "resolution"

/-- One element of the `shots` array. `id` is the raw ordered-id value;
`role`/`reason` may be arbitrary beat-supplied values. -/
structure Shot where
  id : Json
  role : Json
  reason : Json

/-- The scan of `beats.find(b => String(b.id) === String(id))`
(sequence.ts line 76): the plain access `b.id` throws a `TypeError` when
the scan reaches a `null` element before a match, so the scan is
`Except`-valued. -/
def findBeat (id : Json) : List Json → Except String (Option Json)
  | [] => Except.ok none
  | b :: rest =>
    match jsMember b "id" with
    | Except.error e => Except.error e
    | Except.ok bid =>
      if jsToStringU bid == jsToString id then Except.ok (some b)
      else findBeat id rest

/-- One shot record given the (possibly absent) found beat (sequence.ts
lines 77-83): `role: beat?.role || quantile`, `reason: beat?.reason || ''`
— optional chaining, so this part never throws. -/
def mkShotWith (beat : Option Json) (n idx : Nat) (id : Json) : Shot :=
  { id := id,
    role := jsOr (jsMemberChain beat "role") (Json.str (positionRole idx n)),
    reason := jsOr (jsMemberChain beat "reason") (Json.str "") }

/-- One shot record (sequence.ts lines 76-83): run the beat scan (which
can throw), then assemble the shot. -/
def mkShot (beats : List Json) (n idx : Nat) (id : Json) : Except String Shot :=
  match findBeat id beats with
  | Except.error e => Except.error e
  | Except.ok beat => Except.ok (mkShotWith beat n idx id)

/-- The indexed map of `buildShots` unrolled with an explicit position
counter (`n` is `orderedIds.length`, fixed over the whole map). The
callback runs left to right and the first thrown `TypeError` aborts the
whole map. -/
def buildShotsAux (beats : List Json) (n : Nat) :
    Nat → List Json → Except String (List Shot)
  | _, [] => Except.ok []
  | idx, id :: rest =>
    match mkShot beats n idx id with
    | Except.error e => Except.error e
    | Except.ok shot =>
      match buildShotsAux beats n (idx + 1) rest with
      | Except.error e => Except.error e
      | Except.ok shots => Except.ok (shot :: shots)

/-- `buildShots(orderedIds, beats)` (sequence.ts lines 74-85): throws (via
the inner beat scan) exactly when some id's scan reads `null.id`. -/
def buildShots (orderedIds beats : List Json) : Except String (List Shot) :=
  buildShotsAux beats orderedIds.length 0 orderedIds

/-- The shots `buildShots(ids, [])` computes: with no beats the scan finds
nothing and never throws, so every shot is beats-less. -/
def noBeatsShots (n : Nat) : Nat → List Json → List Shot
  | _, [] => []
  | idx, id :: rest => mkShotWith none n idx id :: noBeatsShots n (idx + 1) rest

/-! ## The sequence handler's planning core (sequence.ts lines 186-342)

Everything from `const targetCount = images.length` down to the response:
the success path (lines 192-290), the timeout path (lines 293-316) and the
error path (lines 318-341). The outcome of the single upstream model call
is environmental, so it is a parameter:
`success content` is a completed call whose extracted text is `content`
(line 234), `timeout` is the `AbortError` route, and `failure msg` is any
other rejection whose `error.message` is `msg`. -/

inductive ModelOutcome where
  | success (content : String)
  | timeout
  | failure (message : String)

/-- The Final Plan object (sequence.ts lines 269-279 / 301-311 / 326-337).
`durations` entries are the literal `3.8 = 19/5`; `error` is the optional
diagnostic field of the error route. -/
structure Plan where
  theme : Json
  emotion_arc : List Json
  ordered_ids : List String
  shots : List Shot
  selected : List Nat
  order : List Nat
  durations : List ℚ
  transitions : List String
  usedPlanner : String
  error : Option String

/-- The HTTP response of the planning core (every route of lines 188-342
returns status 200 with `ok: true` and a plan). -/
structure SeqResponse where
  status : Nat
  ok : Bool
  plan : Plan

/-- The parse-failure fallback shape of lines 237-242. -/
def fallbackPlanJson (images : List Image) (targetCount : Nat) : Json :=
  Json.obj
    [("orderedIds", Json.arr ((deterministicFallback images targetCount).map Json.str)),
     ("theme", Json.str ""),
     ("emotion_arc", Json.arr []),
     ("beats", Json.arr [])]

/-- `raw.orderedIds || raw.ordered_ids || []` (line 245): both property
accesses are plain, so this throws exactly when `raw` is `null` (a model
reply of literally `null` parses to it); `||` short-circuits, so the
second access happens only when the first value is falsy. -/
def candidateOrderedIds (raw : Json) : Except String Json :=
  match jsMember raw "orderedIds" with
  | Except.error e => Except.error e
  | Except.ok (some v) =>
    if jsTruthy v then Except.ok v
    else
      match jsMember raw "ordered_ids" with
      | Except.error e => Except.error e
      | Except.ok o2 => Except.ok (jsOr o2 (Json.arr []))
  | Except.ok none =>
    match jsMember raw "ordered_ids" with
    | Except.error e => Except.error e
    | Except.ok o2 => Except.ok (jsOr o2 (Json.arr []))

/-- `Array.isArray(v) ? v : []` (lines 246 and 248). -/
def jsArrayOrEmpty (v : Option Json) : List Json :=
  match v with
  | some (Json.arr xs) => xs
  | _ => []

/-- The fixed per-shot duration `3.8` (lines 276, 308, 333). -/
def shotDuration : ℚ := 19 / 5

/-- The shared fallback plan of the timeout route (lines 301-311) and the
error route (lines 326-337); they differ only in the diagnostic `error`
field. `buildShots(fallbackIds, [])` performs no property access (the scan
of an empty beats list finds nothing), so its error arm is unreachable —
`buildShots_nil_beats` below proves it. -/
def fallbackRoutePlan (images : List Image) (err : Option String) : Plan :=
  let targetCount := images.length
  let fallbackIds := deterministicFallback images targetCount
  { theme := Json.str "",
    emotion_arc := [],
    ordered_ids := fallbackIds,
    shots :=
      match buildShots (fallbackIds.map Json.str) [] with
      | Except.ok shots => shots
      | Except.error _ => [],
    selected := List.range fallbackIds.length,
    order := List.range fallbackIds.length,
    durations := List.replicate fallbackIds.length shotDuration,
    transitions := List.replicate (fallbackIds.length - 1) "crossfade",
    usedPlanner := "fallback",
    error := err }

/-- The validate-or-substitute step of lines 250-256 followed by the
extraction of the working id list: the candidate's elements when the
validation passed (it is then necessarily an array), otherwise the
Fallback Orderer's ids. `targetCount` is always `images.length`
(line 186). -/
def finalIdsOf (images : List Image) (cand : Json) : List Json :=
  if isValidSelection (some cand) images images.length then
    match cand with
    | Json.arr xs => xs
    | _ => []
  else (deterministicFallback images images.length).map Json.str

/-- The plan object assembled at the end of the success path (sequence.ts
lines 258-279) from the validated-or-substituted candidate, the (already
truthiness-defaulted) theme, the emotion arc and the built shots.
`transitions` uses `Math.max(0, len - 1)`, which is truncated `Nat`
subtraction; `selected` maps each final id to its first matching item
index with `-1 ↦ 0` (line 265). -/
def successRecord (images : List Image) (cand : Json) (theme0 : Json)
    (arc0 : List Json) (shots : List Shot) : Plan :=
  let orderedIdsStr := (finalIdsOf images cand).map jsToString
  { theme := theme0,
    emotion_arc := arc0,
    ordered_ids := orderedIdsStr,
    shots := shots,
    selected := orderedIdsStr.map fun id =>
      (images.findIdx? fun img => img.id == id).getD 0,
    order := List.range orderedIdsStr.length,
    durations := List.replicate orderedIdsStr.length shotDuration,
    transitions := List.replicate (orderedIdsStr.length - 1) "crossfade",
    usedPlanner := "ai",
    error := none }

/-- The try-block of the success path (sequence.ts lines 234-279), in
source evaluation order: the four plain property accesses on the parsed
reply (lines 245-248, which throw when the reply is the literal `null`),
the validate-or-substitute step, then shot assembly (line 259, which
throws when the beat scan reads `null.id`). A thrown `TypeError` is the
`Except.error` case and lands in the handler's inner catch.
`transitions` uses `Math.max(0, len - 1)`, which is truncated `Nat`
subtraction; `selected` maps each final id to its first matching item
index with `-1 ↦ 0` (line 265). -/
def successPlanE (JSONparse : String → Except String Json)
    (images : List Image) (content : String) : Except String Plan :=
  let raw := safeParseJSON JSONparse content (fallbackPlanJson images images.length)
  match candidateOrderedIds raw with
  | Except.error e => Except.error e
  | Except.ok selectedOrderedIds =>
    match jsMember raw "beats" with
    | Except.error e => Except.error e
    | Except.ok beatsOpt =>
      match jsMember raw "theme" with
      | Except.error e => Except.error e
      | Except.ok themeOpt =>
        match jsMember raw "emotion_arc" with
        | Except.error e => Except.error e
        | Except.ok arcOpt =>
          match buildShots (finalIdsOf images selectedOrderedIds)
              (jsArrayOrEmpty beatsOpt) with
          | Except.error e => Except.error e
          | Except.ok shots =>
            Except.ok
              (successRecord images selectedOrderedIds (jsOr themeOpt (Json.str ""))
                (jsArrayOrEmpty arcOpt) shots)

/-- The planning core (sequence.ts lines 186-342), for the already
normalized item list. `JSONparse` is the platform `JSON.parse`. A
`TypeError` thrown inside the try-block is not an `AbortError`, so the
inner catch (line 292) sends it down the error route with its message
attached — exactly like any other non-timeout failure. -/
def planSequence (JSONparse : String → Except String Json)
    (images : List Image) (outcome : ModelOutcome) : SeqResponse :=
  match outcome with
  | ModelOutcome.success content =>
    match successPlanE JSONparse images content with
    | Except.ok plan => { status := 200, ok := true, plan := plan }
    | Except.error e =>
      { status := 200, ok := true, plan := fallbackRoutePlan images (some e) }
  | ModelOutcome.timeout =>
    { status := 200, ok := true, plan := fallbackRoutePlan images none }
  | ModelOutcome.failure msg =>
    { status := 200, ok := true, plan := fallbackRoutePlan images (some msg) }

/-- A concrete instantiation of the platform `JSON.parse` for the finitely
many documents the scenarios below feed it, mapping each to the value
`JSON.parse` returns on it and everything else to a `SyntaxError`. -/
def demoParse (s : String) : Except String Json :=
  if s = "\x7b\"orderedIds\":[\"a\",\"a\"]\x7d" then
    Except.ok (Json.obj [("orderedIds", Json.arr [Json.str "a", Json.str "a"])])
  else if s = "\x7b\"orderedIds\":[\"a\",\"b\"]\x7d" then
    Except.ok (Json.obj [("orderedIds", Json.arr [Json.str "a", Json.str "b"])])
  else if s = "\x7b\"orderedIds\":[\"a\"],\"beats\":[null]\x7d" then
    Except.ok (Json.obj
      [("orderedIds", Json.arr [Json.str "a"]),
       ("beats", Json.arr [Json.null])])
  else
    Except.error "Unexpected token"

/-! ## Vision endpoint (src/unnamed/part_000)

Only the per-photo loop of the handler (lines 236-273) and its
oversize-payload guard (lines 249-255) carry the claimed behvior. The
upstream interaction of `analyzeImage` is environmental, so the loop is
parameterized by the total function `analyze` giving, for each loop index
and photo, the value `analyzeImage` resolves to (it never rejects: every
failure inside it already resolves to the canned fallback). -/

/-- One entry of `body.photos`. -/
structure Photo where
  filename : String
  data : String
  mimeType : Option String

/-- `createFallbackAnalysis(filename)` (part_000 lines 55-69). -/
def createFallbackAnalysis (filename : String) : Json :=
  Json.obj
    [("filename", Json.str filename),
     ("subject", Json.str "unknown"),
     ("composition", Json.obj
        [("framing", Json.str "medium"), ("symmetry", Json.str "medium"),
         ("leading_lines", Json.bool false), ("negative_space", Json.str "medium")]),
     ("light", Json.obj
        [("key", Json.str "mid-key"), ("contrast", Json.str "medium"),
         ("directionality", Json.str "ambient")]),
     ("mood", Json.arr []),
     ("visual_energy", Json.num 5),
     ("emotion_vector", Json.obj
        [("calm", Json.num (1 / 2)), ("tension", Json.num (1 / 2)),
         ("mystery", Json.num (1 / 2)), ("intimacy", Json.num (1 / 2)),
         ("awe", Json.num (1 / 2))]),
     ("motion_safe_zones", Json.obj
        [("center", Json.bool true), ("left", Json.bool true),
         ("right", Json.bool true), ("top", Json.bool true),
         ("bottom", Json.bool true)]),
     ("recommended_move_types", Json.arr [Json.str "hold"]),
     ("do_not", Json.arr []),
     ("best_role", Json.arr [])]

/-- Base64 payload extraction (part_000 lines 245-247):
`photo.data.includes(',') ? photo.data.split(',')[1] : photo.data`. -/
def base64Of (data : String) : String :=
  if data.contains ',' then ((data.splitOn ",").drop 1).headD "" else data

/-- The oversize guard of part_000 line 251:
`base64Data.length > 13_300_000`. -/
def oversizeB (p : Photo) : Bool :=
  decide (13300000 < (base64Of p.data).length)

/-- The `results` accumulated by the loop of part_000 lines 236-273,
starting at loop index `i`: an oversize photo contributes the canned
fallback (line 253) and is skipped; otherwise the photo contributes the
value `analyzeImage` resolves to. One entry is pushed per photo either
way. -/
def visionResults (analyze : Nat → Photo → Json) : Nat → List Photo → List Json
  | _, [] => []
  | i, p :: rest =>
    if oversizeB p then
      createFallbackAnalysis p.filename :: visionResults analyze (i + 1) rest
    else
      analyze i p :: visionResults analyze (i + 1) rest

/-- Instrumentation of the same loop: the indices of the iterations that
reach the upstream call (part_000 line 262), i.e. those not short-circuited
by the oversize guard's `continue`. -/
def visionCalls : Nat → List Photo → List Nat
  | _, [] => []
  | i, p :: rest =>
    if oversizeB p then visionCalls (i + 1) rest
    else i :: visionCalls (i + 1) rest

/-! ## Shared lemmas -/

/-- Characterization of the Output Validator, shared by several proofs
below: the check is exactly array-ness, exact length, and string-normalized
membership of every element in the item-id set. -/
theorem isValidSelection_eq_true_iff (cand : Option Json) (images : List Image)
    (targetCount : Nat) :
    isValidSelection cand images targetCount = true ↔
      ∃ xs, cand = some (Json.arr xs) ∧ xs.length = targetCount ∧
        ∀ x ∈ xs, jsToString x ∈ images.map Image.id := by
  cases cand with
  | none => simp [isValidSelection]
  | some v =>
    cases v with
    | arr xs =>
      by_cases h : xs.length = targetCount
      · simp [isValidSelection, h, List.all_eq_true]
      · simp [isValidSelection, h]
    | null => simp [isValidSelection]
    | bool b => simp [isValidSelection]
    | num q => simp [isValidSelection]
    | str s => simp [isValidSelection]
    | obj fields => simp [isValidSelection]

/-- At full target count the Fallback Orderer is exactly the item ids in
original order. -/
theorem deterministicFallback_full (images : List Image) :
    deterministicFallback images images.length = images.map Image.id := by
  simp [deterministicFallback]

/-- `String(...)` is the identity on values that are already strings. -/
theorem jsToString_str (s : String) : jsToString (Json.str s) = s := by
  simp [jsToString]

theorem map_jsToString_map_str (l : List String) :
    (l.map Json.str).map jsToString = l := by
  induction l with
  | nil => rfl
  | cons x xs ih => simp [jsToString_str, ih]

/-! ## Concrete scenario data -/

/-- Two normalized items with ids `a`, `b`. -/
def demoImages2 : List Image :=
  [{ id := "a", filename := "a.jpg" }, { id := "b", filename := "b.jpg" }]

/-- Three normalized items with ids `a`, `b`, `c`. -/
def demoImages3 : List Image :=
  [{ id := "a", filename := "a.jpg" }, { id := "b", filename := "b.jpg" },
   { id := "c", filename := "c.jpg" }]

/-! ## C3 — Output Validator characterization -/

/-- C3: `isValidSelection(orderedIds, items, targetCount)` returns true iff
`orderedIds` is a sequence of length `targetCount` all of whose elements,
string-normalized, are item ids. Consequently it rejects absent or scalar
candidates, empty or wrong-length candidates when the target differs, and
foreign ids; and it accepts every true permutation of the item ids — and
likewise any length-`targetCount` sequence of member ids with repeats,
since no uniqueness check is performed. -/
theorem validator_accepts_iff (cand : Option Json) (images : List Image)
    (targetCount : Nat) :
    (isValidSelection cand images targetCount = true ↔
      ∃ xs, cand = some (Json.arr xs) ∧ xs.length = targetCount ∧
        ∀ x ∈ xs, jsToString x ∈ images.map Image.id) ∧
    (∀ xs : List String, xs.Perm (images.map Image.id) →
      isValidSelection (some (Json.arr (xs.map Json.str))) images images.length = true) := by
  refine ⟨isValidSelection_eq_true_iff cand images targetCount, ?_⟩
  intro xs hperm
  refine (isValidSelection_eq_true_iff _ _ _).2 ⟨xs.map Json.str, rfl, ?_, ?_⟩
  · simpa using hperm.length_eq
  · intro x hx
    rcases List.mem_map.1 hx with ⟨s, hs, rfl⟩
    rw [jsToString_str]
    exact hperm.mem_iff.1 hs

/-- Witness for C3 at a concrete input: a true permutation of the two item
ids is accepted. -/
theorem validator_accepts_iff_witness :
    List.Perm ["b", "a"] (demoImages2.map Image.id) ∧
    isValidSelection (some (Json.arr [Json.str "b", Json.str "a"])) demoImages2
      demoImages2.length = true := by
  refine ⟨by decide, ?_⟩
  have h := (validator_accepts_iff (some (Json.arr [Json.str "b", Json.str "a"]))
    demoImages2 demoImages2.length).2 ["b", "a"] (by decide)
  simpa using h

/-! ## C4 — Fallback Orderer -/

/-- C4: on an item set (distinct ids) of size `n` with target count `n`,
the Fallback Orderer returns exactly the `n` item ids in original input
order — hence each id unique, each drawn from the input set, a permutation
of all item ids. It is a pure total function (no I/O, no failure). -/
theorem fallback_orderer_valid (images : List Image)
    (hnodup : (images.map Image.id).Nodup) :
    deterministicFallback images images.length = images.map Image.id ∧
    (deterministicFallback images images.length).length = images.length ∧
    (deterministicFallback images images.length).Nodup ∧
    ∀ id ∈ deterministicFallback images images.length, id ∈ images.map Image.id := by
  have h := deterministicFallback_full images
  refine ⟨h, by simp [h], h ▸ hnodup, ?_⟩
  intro id hid
  rwa [h] at hid

/-- Witness for C4 at a concrete two-item set. -/
theorem fallback_orderer_valid_witness :
    (demoImages2.map Image.id).Nodup ∧
    deterministicFallback demoImages2 demoImages2.length = demoImages2.map Image.id :=
  ⟨by decide, (fallback_orderer_valid demoImages2 (by decide)).1⟩

/-! ## C5 — Response Parser totality -/

/-- C5: `safeParseJSON` is total: for every strict parser behavior, every
input text and every fallback value, it returns either the strictly parsed
structure of the cleaned text or the supplied fallback unmodified — the
parse error is swallowed, never re-raised. (In the embedding, the thrown
`SyntaxError` of `JSON.parse` is the `Except.error` case.) -/
theorem response_parser_total (JSONparse : String → Except String Json)
    (s : String) (fb : Json) :
    (∃ v, JSONparse (cleanJsonString s) = Except.ok v ∧
      safeParseJSON JSONparse s fb = v) ∨
    ((∃ e, JSONparse (cleanJsonString s) = Except.error e) ∧
      safeParseJSON JSONparse s fb = fb) := by
  cases h : JSONparse (cleanJsonString s) with
  | ok v => exact Or.inl ⟨v, rfl, by simp [safeParseJSON, h]⟩
  | error e => exact Or.inr ⟨⟨e, rfl⟩, by simp [safeParseJSON, h]⟩

/-! ## C7 — shot assembly -/

theorem jsMember_ok_of_ne_null (v : Json) (key : String) (h : v ≠ Json.null) :
    ∃ o, jsMember v key = Except.ok o := by
  cases v with
  | null => exact absurd rfl h
  | bool b => exact ⟨none, rfl⟩
  | num q => exact ⟨none, rfl⟩
  | str s => exact ⟨none, rfl⟩
  | arr elems => exact ⟨none, rfl⟩
  | obj fields => exact ⟨fields.lookup key, rfl⟩

theorem findBeat_ok_of_no_null (id : Json) :
    ∀ beats : List Json, Json.null ∉ beats →
      ∃ r, findBeat id beats = Except.ok r := by
  intro beats
  induction beats with
  | nil => intro hnn; exact ⟨none, rfl⟩
  | cons b rest ih =>
    intro hnn
    have hb : b ≠ Json.null := by
      intro hb
      exact hnn (by rw [hb]; exact List.mem_cons_self _ _)
    obtain ⟨bid, hbid⟩ := jsMember_ok_of_ne_null b "id" hb
    by_cases hm : (jsToStringU bid == jsToString id) = true
    · exact ⟨some b, by simp [findBeat, hbid, hm]⟩
    · obtain ⟨r, hr⟩ := ih fun hmem => hnn (List.mem_cons_of_mem _ hmem)
      exact ⟨r, by simp [findBeat, hbid, hm, hr]⟩

theorem mkShot_ok_of_no_null (beats : List Json) (n idx : Nat) (id : Json)
    (hnn : Json.null ∉ beats) :
    ∃ beat, findBeat id beats = Except.ok beat ∧
      mkShot beats n idx id = Except.ok (mkShotWith beat n idx id) := by
  obtain ⟨beat, hb⟩ := findBeat_ok_of_no_null id beats hnn
  exact ⟨beat, hb, by simp [mkShot, hb]⟩

theorem buildShotsAux_ok_of_no_null (beats : List Json) (n : Nat)
    (hnn : Json.null ∉ beats) :
    ∀ (ids : List Json) (s : Nat),
      ∃ shots, buildShotsAux beats n s ids = Except.ok shots ∧
        shots.length = ids.length ∧
        ∀ (i : Nat) (id : Json), ids[i]? = some id →
          ∃ beat, findBeat id beats = Except.ok beat ∧
            shots[i]? = some (mkShotWith beat n (s + i) id) := by
  intro ids
  induction ids with
  | nil =>
    intro s
    exact ⟨[], rfl, rfl, by intro i id h; simp at h⟩
  | cons id0 rest ih =>
    intro s
    obtain ⟨beat0, hb0, hmk⟩ := mkShot_ok_of_no_null beats n s id0 hnn
    obtain ⟨shots0, h1, h2, h3⟩ := ih (s + 1)
    refine ⟨mkShotWith beat0 n s id0 :: shots0, ?_, by simp [h2], ?_⟩
    · simp [buildShotsAux, hmk, h1]
    · intro i id hi
      cases i with
      | zero =>
        simp only [List.getElem?_cons_zero, Option.some.injEq] at hi
        subst hi
        exact ⟨beat0, hb0, by simp⟩
      | succ j =>
        simp only [List.getElem?_cons_succ] at hi
        obtain ⟨beat, hb, hs⟩ := h3 j id hi
        have hadd : s + (j + 1) = s + 1 + j := by omega
        exact ⟨beat, hb, by simp only [List.getElem?_cons_succ, hadd]; exact hs⟩

theorem buildShotsAux_ok_length (beats : List Json) (n : Nat) :
    ∀ (ids : List Json) (s : Nat) (shots : List Shot),
      buildShotsAux beats n s ids = Except.ok shots → shots.length = ids.length := by
  intro ids
  induction ids with
  | nil =>
    intro s shots h
    simp only [buildShotsAux] at h
    have hinj := Except.ok.inj h
    rw [← hinj]
    rfl
  | cons id0 rest ih =>
    intro s shots h
    simp only [buildShotsAux] at h
    split at h
    · exact absurd h (by simp)
    · split at h
      · exact absurd h (by simp)
      · rename_i shot hmk shots0 hrest
        have := Except.ok.inj h
        rw [← this]
        simp [ih (s + 1) shots0 hrest]

/-- The role ladder of lines 79-81 in interval form: the four quantile
bands `[0, 0.2n)`, `[0.2n, 0.6n)`, `[0.6n, 0.9n)`, `[0.9n, n)` scaled to
integer arithmetic. -/
theorem positionRole_intervals (idx n : Nat) :
    (positionRole idx n = "opening" ↔ 5 * idx < n) ∧
    (positionRole idx n = "build" ↔ n ≤ 5 * idx ∧ 5 * idx < 3 * n) ∧
    (positionRole idx n = "turn" ↔ 3 * n ≤ 5 * idx ∧ 10 * idx < 9 * n) ∧
    (positionRole idx n = "resolution" ↔ 9 * n ≤ 10 * idx) := by
  unfold positionRole
  split_ifs with h1 h2 h3 <;>
    and_intros <;>
    constructor <;>
    intro h <;>
    first
      | rfl
      | omega
      | (exact absurd h (by decide))

/-- C7 (amended): for every final ordering and every beats list free of
`null` entries — in particular whenever the reply's beats are well-formed
objects — `buildShots` completes and produces one shot per ordered id, in
order; a shot's `role` is the matching beat's (string-normalized id
comparison) truthy `role` when such a beat supplies one, and otherwise —
in particular whenever no beat matches — is assigned by position over the
final ordered sequence: indices in `[0, 0.2*n)` get `"opening"`,
`[0.2*n, 0.6*n)` get `"build"`, `[0.6*n, 0.9*n)` get `"turn"`, and the
final `[0.9*n, n)` get `"resolution"` (stated in exact integer arithmetic,
which agrees with the source's double arithmetic for all `n ≤ 200`, see
`positionRole`); `reason` defaults to the empty string when absent. A
`null` entry in the beats list instead makes the per-id scan throw a
`TypeError` (see the counterexample), which the handler's error route
catches. -/
theorem build_shots_roles (orderedIds beats : List Json) (i : Nat)
    (hnn : Json.null ∉ beats) :
    ∃ shots, buildShots orderedIds beats = Except.ok shots ∧
      shots.length = orderedIds.length ∧
      (∀ id : Json, orderedIds[i]? = some id →
        ∃ beat, findBeat id beats = Except.ok beat ∧
          shots[i]? = some (mkShotWith beat orderedIds.length i id)) ∧
      (∀ (beat : Option Json) (id : Json),
        (mkShotWith beat orderedIds.length i id).id = id ∧
        (∀ r, jsMemberChain beat "role" = some r → jsTruthy r = true →
          (mkShotWith beat orderedIds.length i id).role = r) ∧
        (∀ r, jsMemberChain beat "reason" = some r → jsTruthy r = true →
          (mkShotWith beat orderedIds.length i id).reason = r) ∧
        (∀ r, jsMemberChain beat "role" = some r → jsTruthy r = false →
          (mkShotWith beat orderedIds.length i id).role =
            Json.str (positionRole i orderedIds.length)) ∧
        (∀ r, jsMemberChain beat "reason" = some r → jsTruthy r = false →
          (mkShotWith beat orderedIds.length i id).reason = Json.str "") ∧
        (jsMemberChain beat "role" = none →
          (mkShotWith beat orderedIds.length i id).role =
            Json.str (positionRole i orderedIds.length)) ∧
        (jsMemberChain beat "reason" = none →
          (mkShotWith beat orderedIds.length i id).reason = Json.str "")) ∧
      ((positionRole i orderedIds.length = "opening" ↔ 5 * i < orderedIds.length) ∧
       (positionRole i orderedIds.length = "build" ↔
          orderedIds.length ≤ 5 * i ∧ 5 * i < 3 * orderedIds.length) ∧
       (positionRole i orderedIds.length = "turn" ↔
          3 * orderedIds.length ≤ 5 * i ∧ 10 * i < 9 * orderedIds.length) ∧
       (positionRole i orderedIds.length = "resolution" ↔
          9 * orderedIds.length ≤ 10 * i)) := by
  obtain ⟨shots, h1, h2, h3⟩ :=
    buildShotsAux_ok_of_no_null beats orderedIds.length hnn orderedIds 0
  refine ⟨shots, h1, h2, ?_, ?_, positionRole_intervals i orderedIds.length⟩
  · intro id hid
    obtain ⟨beat, hb, hs⟩ := h3 i id hid
    exact ⟨beat, hb, by simpa using hs⟩
  · intro beat id
    refine ⟨rfl, ?_, ?_, ?_, ?_, ?_, ?_⟩
    · intro r hr htr; simp [mkShotWith, hr, jsOr, htr]
    · intro r hr htr; simp [mkShotWith, hr, jsOr, htr]
    · intro r hr htr; simp [mkShotWith, hr, jsOr, htr]
    · intro r hr htr; simp [mkShotWith, hr, jsOr, htr]
    · intro hr; simp [mkShotWith, hr, jsOr]
    · intro hr; simp [mkShotWith, hr, jsOr]

/-- Witness for C7 at a concrete input (one id, no beats). -/
theorem build_shots_roles_witness :
    Json.null ∉ ([] : List Json) ∧
    ∃ shots, buildShots [Json.str "a"] ([] : List Json) = Except.ok shots ∧
      shots.length = 1 := by
  refine ⟨by simp, ?_⟩
  obtain ⟨shots, h1, h2, -⟩ := build_shots_roles [Json.str "a"] [] 0 (by simp)
  exact ⟨shots, h1, h2⟩

/-- Counterexample to C7 as stated: a `null` entry in the beats list makes
`buildShots` throw a `TypeError` (the scan reads `null.id`, sequence.ts
line 76) instead of producing one shot per ordered id. -/
theorem build_shots_null_beat_counterexample :
    buildShots [Json.str "a"] [Json.null] =
      Except.error "Cannot read properties of null (reading id)" := rfl

/-! ## C6 — timeout and error routes -/

theorem noBeatsShots_length (n : Nat) :
    ∀ (ids : List Json) (s : Nat), (noBeatsShots n s ids).length = ids.length := by
  intro ids
  induction ids with
  | nil => intro s; rfl
  | cons id rest ih => intro s; simp [noBeatsShots, ih]

theorem noBeatsShots_getElem (n : Nat) :
    ∀ (ids : List Json) (s i : Nat),
      (noBeatsShots n s ids)[i]? = (ids[i]?).map (mkShotWith none n (s + i)) := by
  intro ids
  induction ids with
  | nil => intro s i; rfl
  | cons id rest ih =>
    intro s i
    cases i with
    | zero => simp [noBeatsShots]
    | succ j =>
      have hadd : s + (j + 1) = s + 1 + j := by omega
      simp only [noBeatsShots, List.getElem?_cons_succ, hadd]
      exact ih (s + 1) j

theorem buildShotsAux_nil_beats (n : Nat) :
    ∀ (ids : List Json) (s : Nat),
      buildShotsAux ([] : List Json) n s ids = Except.ok (noBeatsShots n s ids) := by
  intro ids
  induction ids with
  | nil => intro s; rfl
  | cons id rest ih =>
    intro s
    simp [buildShotsAux, mkShot, findBeat, noBeatsShots, ih]

theorem buildShots_nil_beats (ids : List Json) :
    buildShots ids [] = Except.ok (noBeatsShots ids.length 0 ids) :=
  buildShotsAux_nil_beats ids.length ids 0

/-- With no beats, a shot is pure position-quantile assignment. -/
theorem mkShotWith_none (n i : Nat) (id : Json) :
    mkShotWith none n i id =
      { id := id, role := Json.str (positionRole i n), reason := Json.str "" } := rfl

/-- The shots of the shared timeout/error-route plan, with the unreachable
error arm of the `match` discharged by `buildShots_nil_beats`. -/
theorem fallbackRoutePlan_shots_def (images : List Image) (err : Option String) :
    (fallbackRoutePlan images err).shots =
      noBeatsShots ((deterministicFallback images images.length).map Json.str).length 0
        ((deterministicFallback images images.length).map Json.str) := by
  show (match buildShots ((deterministicFallback images images.length).map Json.str) []
        with
        | Except.ok shots => shots
        | Except.error _ => []) = _
  rw [buildShots_nil_beats]

/-- The shots of the shared timeout/error-route plan: one per fallback id,
beats-less. -/
theorem fallbackRoutePlan_shots (images : List Image) (err : Option String) (i : Nat) :
    (fallbackRoutePlan images err).shots[i]? =
      ((deterministicFallback images images.length)[i]?).map
        (fun id => { id := Json.str id,
                     role := Json.str (positionRole i images.length),
                     reason := Json.str "" }) := by
  have hlen : ((deterministicFallback images images.length).map Json.str).length =
      images.length := by
    simp [deterministicFallback_full]
  rw [fallbackRoutePlan_shots_def, hlen, noBeatsShots_getElem, List.getElem?_map]
  cases (deterministicFallback images images.length)[i]? with
  | none => rfl
  | some id => simp [mkShotWith_none]

/-- C6: on the upstream-timeout and upstream-failure routes the handler
still returns HTTP 200 with `ok: true`; the plan is built directly from the
Fallback Orderer's ordering with empty theme and emotion arc, every shot
role derived purely from its position quantile (no beats), and
`usedPlanner` tagged `"fallback"`; the diagnostic `error` field carries the
failure message exactly on the non-timeout error route and is absent on
the timeout route. -/
theorem fallback_routes_degraded_success (JSONparse : String → Except String Json)
    (images : List Image) (msg : String) :
    (planSequence JSONparse images ModelOutcome.timeout).status = 200 ∧
    (planSequence JSONparse images ModelOutcome.timeout).ok = true ∧
    (planSequence JSONparse images (ModelOutcome.failure msg)).status = 200 ∧
    (planSequence JSONparse images (ModelOutcome.failure msg)).ok = true ∧
    (planSequence JSONparse images ModelOutcome.timeout).plan.ordered_ids =
      deterministicFallback images images.length ∧
    (planSequence JSONparse images (ModelOutcome.failure msg)).plan.ordered_ids =
      deterministicFallback images images.length ∧
    (planSequence JSONparse images ModelOutcome.timeout).plan.theme = Json.str "" ∧
    (planSequence JSONparse images (ModelOutcome.failure msg)).plan.theme = Json.str "" ∧
    (planSequence JSONparse images ModelOutcome.timeout).plan.emotion_arc = [] ∧
    (planSequence JSONparse images (ModelOutcome.failure msg)).plan.emotion_arc = [] ∧
    (planSequence JSONparse images ModelOutcome.timeout).plan.usedPlanner = "fallback" ∧
    (planSequence JSONparse images (ModelOutcome.failure msg)).plan.usedPlanner = "fallback" ∧
    (planSequence JSONparse images ModelOutcome.timeout).plan.error = none ∧
    (planSequence JSONparse images (ModelOutcome.failure msg)).plan.error = some msg ∧
    (∀ i : Nat,
      (planSequence JSONparse images ModelOutcome.timeout).plan.shots[i]? =
        ((deterministicFallback images images.length)[i]?).map
          (fun id => { id := Json.str id,
                       role := Json.str (positionRole i images.length),
                       reason := Json.str "" })) ∧
    (∀ i : Nat,
      (planSequence JSONparse images (ModelOutcome.failure msg)).plan.shots[i]? =
        ((deterministicFallback images images.length)[i]?).map
          (fun id => { id := Json.str id,
                       role := Json.str (positionRole i images.length),
                       reason := Json.str "" })) := by
  and_intros <;>
    first
      | rfl
      | (intro i
         exact fallbackRoutePlan_shots images _ i)

/-! ## C1 — Final Plan structural invariant -/

theorem normalizeAux_length : ∀ (raws : List RawItem) (s : Nat),
    (normalizeAux s raws).length = raws.length := by
  intro raws
  induction raws with
  | nil => intro s; rfl
  | cons a rest ih => intro s; simp [normalizeAux, ih]

theorem normalizeItems_length (raws : List RawItem) :
    (normalizeItems raws).length = raws.length :=
  normalizeAux_length raws 0

/-- Properties of the working id list after validate-or-substitute: its
string form has exactly one entry per item, every entry is an item id, and
whenever it is duplicate-free it is a full permutation of the item ids. -/
theorem finalIdsOf_props (images : List Image) (cand : Json)
    (hnodup : (images.map Image.id).Nodup) :
    ((finalIdsOf images cand).map jsToString).length = images.length ∧
    (∀ id ∈ (finalIdsOf images cand).map jsToString, id ∈ images.map Image.id) ∧
    (((finalIdsOf images cand).map jsToString).Nodup →
      ((finalIdsOf images cand).map jsToString).Perm (images.map Image.id)) := by
  by_cases hv : isValidSelection (some cand) images images.length = true
  · obtain ⟨xs, hcand, hlen, hmem⟩ := (isValidSelection_eq_true_iff _ _ _).1 hv
    obtain rfl : cand = Json.arr xs := Option.some.inj hcand
    have hfin : finalIdsOf images (Json.arr xs) = xs := by
      simp [finalIdsOf, hv]
    rw [hfin]
    have hsub : ∀ id ∈ xs.map jsToString, id ∈ images.map Image.id := by
      intro id hid
      rcases List.mem_map.1 hid with ⟨x, hx, rfl⟩
      exact hmem x hx
    refine ⟨by simp [hlen], hsub, ?_⟩
    intro hnd
    exact (List.subperm_of_subset hnd hsub).perm_of_length_le (by simp [hlen])
  · have hfin : finalIdsOf images cand =
        (deterministicFallback images images.length).map Json.str := by
      simp [finalIdsOf, hv]
    rw [hfin, map_jsToString_map_str, deterministicFallback_full]
    exact ⟨by simp, fun id h => h, fun _ => List.Perm.refl _⟩

/-- The structural contract of a Final Plan against the item-id list:
one ordered id per item drawn from the item ids, one shot per ordered id,
`n - 1` transitions, `n` durations, and — whenever the ordered ids are
duplicate-free — a full permutation of the item ids. -/
def PlanInvariant (plan : Plan) (ids : List String) : Prop :=
  plan.ordered_ids.length = ids.length ∧
  (∀ id ∈ plan.ordered_ids, id ∈ ids) ∧
  plan.shots.length = plan.ordered_ids.length ∧
  plan.transitions.length = ids.length - 1 ∧
  plan.durations.length = ids.length ∧
  (plan.ordered_ids.Nodup → plan.ordered_ids.Perm ids)

theorem fallbackRoutePlan_ordered_ids (images : List Image) (err : Option String) :
    (fallbackRoutePlan images err).ordered_ids =
      deterministicFallback images images.length := rfl

theorem fallbackRoutePlan_transitions_def (images : List Image) (err : Option String) :
    (fallbackRoutePlan images err).transitions =
      List.replicate ((deterministicFallback images images.length).length - 1)
        "crossfade" := rfl

theorem fallbackRoutePlan_durations_def (images : List Image) (err : Option String) :
    (fallbackRoutePlan images err).durations =
      List.replicate (deterministicFallback images images.length).length
        shotDuration := rfl

theorem fallbackRoutePlan_invariant (images : List Image) (err : Option String) :
    PlanInvariant (fallbackRoutePlan images err) (images.map Image.id) := by
  have hfb := deterministicFallback_full images
  unfold PlanInvariant
  rw [fallbackRoutePlan_ordered_ids, fallbackRoutePlan_shots_def,
    fallbackRoutePlan_transitions_def, fallbackRoutePlan_durations_def, hfb]
  refine ⟨rfl, fun id h => h, ?_, by simp, by simp, fun _ => List.Perm.refl _⟩
  rw [noBeatsShots_length]
  simp

theorem candidateOrderedIds_ok_ne_null (raw : Json) (cand : Json)
    (h : candidateOrderedIds raw = Except.ok cand) : raw ≠ Json.null := by
  intro hr
  subst hr
  simp [candidateOrderedIds, jsMember] at h

theorem buildShots_ok_length (ids beats : List Json) (shots : List Shot)
    (h : buildShots ids beats = Except.ok shots) : shots.length = ids.length :=
  buildShotsAux_ok_length beats ids.length ids 0 shots h

theorem successRecord_invariant (images : List Image) (cand : Json)
    (theme0 : Json) (arc0 : List Json) (shots : List Shot)
    (hnodup : (images.map Image.id).Nodup)
    (hshots : shots.length = (finalIdsOf images cand).length) :
    PlanInvariant (successRecord images cand theme0 arc0 shots)
      (images.map Image.id) := by
  obtain ⟨hlen, hmem, hperm⟩ := finalIdsOf_props images cand hnodup
  have hlen2 : (images.map Image.id).length = images.length := by simp
  unfold PlanInvariant successRecord
  refine ⟨by rw [hlen, hlen2], hmem, ?_, by simp [hlen, hlen2], by simp [hlen, hlen2],
    hperm⟩
  show shots.length = ((finalIdsOf images cand).map jsToString).length
  rw [hshots]
  simp

theorem successPlanE_ok_invariant (JSONparse : String → Except String Json)
    (images : List Image) (content : String)
    (hnodup : (images.map Image.id).Nodup) :
    ∀ plan, successPlanE JSONparse images content = Except.ok plan →
      PlanInvariant plan (images.map Image.id) := by
  intro plan h
  simp only [successPlanE] at h
  split at h
  · exact absurd h (by simp)
  split at h
  · exact absurd h (by simp)
  split at h
  · exact absurd h (by simp)
  split at h
  · exact absurd h (by simp)
  split at h
  · exact absurd h (by simp)
  have hp := Except.ok.inj h
  subst hp
  apply successRecord_invariant _ _ _ _ _ hnodup
  exact buildShots_ok_length _ _ _ (by assumption)

theorem planSequence_invariant (JSONparse : String → Except String Json)
    (images : List Image) (outcome : ModelOutcome)
    (hnodup : (images.map Image.id).Nodup) :
    PlanInvariant (planSequence JSONparse images outcome).plan (images.map Image.id) := by
  cases outcome with
  | success content =>
    cases hE : successPlanE JSONparse images content with
    | ok plan2 =>
      have hplan :
          (planSequence JSONparse images (ModelOutcome.success content)).plan = plan2 := by
        simp [planSequence, hE]
      rw [hplan]
      exact successPlanE_ok_invariant JSONparse images content hnodup plan2 hE
    | error e =>
      have hplan :
          (planSequence JSONparse images (ModelOutcome.success content)).plan =
            fallbackRoutePlan images (some e) := by
        simp [planSequence, hE]
      rw [hplan]
      exact fallbackRoutePlan_invariant images (some e)
  | timeout => exact fallbackRoutePlan_invariant images none
  | failure msg => exact fallbackRoutePlan_invariant images (some msg)

/-- C1 (amended): for every well-formed sequence request (non-empty,
`n ≤ 200`, distinct normalized ids) the Final Plan on all three routes
satisfies: `ordered_ids` has length `n` with every element drawn from the
item ids, `shots.length == ordered_ids.length`,
`transitions.length == max(0, n-1)`, `durations.length == n`; and
`ordered_ids` is a permutation of the item ids whenever it is
duplicate-free — which always holds on the timeout and error routes, but
can fail on the success path because the Output Validator accepts
length-`n` member-id sequences containing repeats. -/
theorem final_plan_structure (JSONparse : String → Except String Json)
    (raws : List RawItem) (outcome : ModelOutcome)
    (hne : raws ≠ []) (hcap : raws.length ≤ 200)
    (hnodup : ((normalizeItems raws).map Image.id).Nodup) :
    PlanInvariant (planSequence JSONparse (normalizeItems raws) outcome).plan
      ((normalizeItems raws).map Image.id) ∧
    ((normalizeItems raws).map Image.id).length = raws.length :=
  ⟨planSequence_invariant JSONparse (normalizeItems raws) outcome hnodup,
   by simp [normalizeItems_length]⟩

/-- Two raw request entries with provided ids `a`, `b`. -/
def demoRaws2 : List RawItem :=
  [{ id := some "a", filename := some "a.jpg" },
   { id := some "b", filename := some "b.jpg" }]

/-- Witness for C1 at a concrete two-item request on the timeout route. -/
theorem final_plan_structure_witness :
    demoRaws2 ≠ [] ∧ demoRaws2.length ≤ 200 ∧
    ((normalizeItems demoRaws2).map Image.id).Nodup ∧
    (PlanInvariant
        (planSequence demoParse (normalizeItems demoRaws2) ModelOutcome.timeout).plan
        ((normalizeItems demoRaws2).map Image.id) ∧
      ((normalizeItems demoRaws2).map Image.id).length = demoRaws2.length) :=
  ⟨by decide, by decide, by decide,
   final_plan_structure demoParse demoRaws2 ModelOutcome.timeout (by decide) (by decide)
     (by decide)⟩

/-- A model reply whose ordering repeats `a` and omits `b`. -/
def contentDupIds : String := "\x7b\"orderedIds\":[\"a\",\"a\"]\x7d"

/-- Counterexample to C1 as stated: on the success path the model can
return `["a","a"]` for the items `{a, b}`; it passes the Output Validator
(right length, all members), so the Final Plan's `ordered_ids` is
`["a","a"]` — not a permutation of the supplied item ids (`b` omitted,
`a` duplicated). -/
theorem final_plan_perm_counterexample :
    (planSequence demoParse (normalizeItems demoRaws2)
        (ModelOutcome.success contentDupIds)).plan.ordered_ids = ["a", "a"] ∧
    ¬ (planSequence demoParse (normalizeItems demoRaws2)
        (ModelOutcome.success contentDupIds)).plan.ordered_ids.Perm
        ((normalizeItems demoRaws2).map Image.id) := by
  decide

/-! ## C2 — invalid model ordering -/

/-- C2 (amended): when the model call succeeds and the parsed candidate
ordering is extracted without a type error but fails the Output Validator,
the returned Final Plan's `ordered_ids` equals the Fallback Orderer's
output (the items' original order) in every continuation. `usedPlanner`
is `"ai"` with no `error` field whenever shot assembly completes — in
particular whenever the reply's beats array has no `null` entry — because
the success path tags `"ai"` unconditionally (sequence.ts line 278) even
though the ordering was substituted; only if the beat scan itself throws
(a `null` beats entry) does the inner catch divert to the error route,
which tags `"fallback"` and attaches the diagnostic message. (Note also
that the scenario of the claim's example — right length, one id missing,
another duplicated — does not even fail the validator, which checks only
length and membership.) -/
theorem invalid_output_uses_fallback_ids (JSONparse : String → Except String Json)
    (images : List Image) (content : String) (cand : Json)
    (hcand : candidateOrderedIds
        (safeParseJSON JSONparse content (fallbackPlanJson images images.length)) =
      Except.ok cand)
    (hinvalid : isValidSelection (some cand) images images.length = false) :
    (planSequence JSONparse images (ModelOutcome.success content)).plan.ordered_ids =
      deterministicFallback images images.length ∧
    (((planSequence JSONparse images
          (ModelOutcome.success content)).plan.usedPlanner = "ai" ∧
      (planSequence JSONparse images (ModelOutcome.success content)).plan.error = none) ∨
     ((planSequence JSONparse images
          (ModelOutcome.success content)).plan.usedPlanner = "fallback" ∧
      ∃ e, (planSequence JSONparse images
          (ModelOutcome.success content)).plan.error = some e)) ∧
    (∀ beatsOpt,
      jsMember (safeParseJSON JSONparse content (fallbackPlanJson images images.length))
          "beats" = Except.ok beatsOpt →
      Json.null ∉ jsArrayOrEmpty beatsOpt →
      (planSequence JSONparse images
          (ModelOutcome.success content)).plan.usedPlanner = "ai" ∧
      (planSequence JSONparse images (ModelOutcome.success content)).plan.error =
        none) := by
  have hne := candidateOrderedIds_ok_ne_null _ cand hcand
  obtain ⟨b0, hb0⟩ := jsMember_ok_of_ne_null _ "beats" hne
  obtain ⟨t0, ht0⟩ := jsMember_ok_of_ne_null _ "theme" hne
  obtain ⟨a0, ha0⟩ := jsMember_ok_of_ne_null _ "emotion_arc" hne
  have hfin : finalIdsOf images cand =
      (deterministicFallback images images.length).map Json.str := by
    simp [finalIdsOf, hinvalid]
  cases hbs : buildShots (finalIdsOf images cand) (jsArrayOrEmpty b0) with
  | ok shots =>
    have hplan : (planSequence JSONparse images (ModelOutcome.success content)).plan =
        successRecord images cand (jsOr t0 (Json.str "")) (jsArrayOrEmpty a0) shots := by
      simp only [planSequence, successPlanE, hcand, hb0, ht0, ha0, hbs]
    rw [hplan]
    refine ⟨?_, Or.inl ⟨rfl, rfl⟩, fun beatsOpt hb hn => ⟨rfl, rfl⟩⟩
    show (finalIdsOf images cand).map jsToString = _
    rw [hfin, map_jsToString_map_str]
  | error e =>
    have hplan : (planSequence JSONparse images (ModelOutcome.success content)).plan =
        fallbackRoutePlan images (some e) := by
      simp only [planSequence, successPlanE, hcand, hb0, ht0, ha0, hbs]
    rw [hplan]
    refine ⟨rfl, Or.inr ⟨rfl, e, rfl⟩, ?_⟩
    intro beatsOpt hb hnn
    rw [hb0] at hb
    have hbeq := Except.ok.inj hb
    subst hbeq
    obtain ⟨shots2, h1, -, -⟩ :=
      buildShotsAux_ok_of_no_null (jsArrayOrEmpty b0) (finalIdsOf images cand).length
        hnn (finalIdsOf images cand) 0
    rw [buildShots] at hbs
    rw [h1] at hbs
    exact absurd hbs (by simp)

/-- A model reply whose ordering has the wrong length for three items. -/
def contentShortIds : String := "\x7b\"orderedIds\":[\"a\",\"b\"]\x7d"

/-- Witness for C2 at a concrete input: three items, model returns only
two ids (no beats), extraction succeeds, validation fails, ordered ids
equal the fallback ordering. -/
theorem invalid_output_uses_fallback_ids_witness :
    candidateOrderedIds
        (safeParseJSON demoParse contentShortIds
          (fallbackPlanJson demoImages3 demoImages3.length)) =
      Except.ok (Json.arr [Json.str "a", Json.str "b"]) ∧
    isValidSelection (some (Json.arr [Json.str "a", Json.str "b"])) demoImages3
      demoImages3.length = false ∧
    (planSequence demoParse demoImages3
        (ModelOutcome.success contentShortIds)).plan.ordered_ids =
      deterministicFallback demoImages3 demoImages3.length :=
  ⟨by rfl, by decide,
   (invalid_output_uses_fallback_ids demoParse demoImages3 contentShortIds
      (Json.arr [Json.str "a", Json.str "b"]) (by rfl) (by decide)).1⟩

/-- Counterexample to C2 as stated: in the very situation the claim
describes (validation fails, `ordered_ids` is the Fallback Orderer's
output, shot assembly completes) the plan's `usedPlanner` is *not*
`"fallback"` — the success path hardcodes `"ai"`. -/
theorem invalid_output_planner_tag_counterexample :
    isValidSelection (some (Json.arr [Json.str "a", Json.str "b"])) demoImages3
      demoImages3.length = false ∧
    (planSequence demoParse demoImages3
        (ModelOutcome.success contentShortIds)).plan.ordered_ids = ["a", "b", "c"] ∧
    (planSequence demoParse demoImages3
        (ModelOutcome.success contentShortIds)).plan.usedPlanner ≠ "fallback" := by
  decide

/-- End-to-end demonstration of the throwing sub-case: a reply whose
ordering fails validation *and* whose beats array contains `null` makes
the beat scan read `null.id`, so the inner catch produces the error-route
plan — fallback ordering, `usedPlanner: "fallback"`, and the `TypeError`
message in the diagnostic `error` field. -/
theorem null_beats_error_route_demo :
    (planSequence demoParse demoImages3
        (ModelOutcome.success "\x7b\"orderedIds\":[\"a\"],\"beats\":[null]\x7d")).plan.ordered_ids =
      ["a", "b", "c"] ∧
    (planSequence demoParse demoImages3
        (ModelOutcome.success "\x7b\"orderedIds\":[\"a\"],\"beats\":[null]\x7d")).plan.usedPlanner =
      "fallback" ∧
    (planSequence demoParse demoImages3
        (ModelOutcome.success "\x7b\"orderedIds\":[\"a\"],\"beats\":[null]\x7d")).plan.error =
      some "Cannot read properties of null (reading id)" := by
  decide

/-! ## C9 — uniqueness of normalized ids -/

theorem normalizeAux_ids_of_provided :
    ∀ (raws : List RawItem) (provided : List String) (s : Nat),
      raws.map RawItem.id = provided.map some →
      (normalizeAux s raws).map Image.id = provided := by
  intro raws
  induction raws with
  | nil =>
    intro provided s h
    cases provided with
    | nil => rfl
    | cons p ps => simp at h
  | cons a rest ih =>
    intro provided s h
    cases provided with
    | nil => simp at h
    | cons p ps =>
      simp only [List.map_cons, List.cons.injEq] at h
      obtain ⟨ha, hrest⟩ := h
      simp [normalizeAux, ha, ih ps (s + 1) hrest]

/-- C9 (amended): the handler does not enforce uniqueness of normalized
item ids; they are pairwise distinct when every entry supplies an id and
the supplied ids are pairwise distinct (the derived id is then exactly the
supplied one). Two entries supplying the same id yield duplicate
normalized ids (see the counterexample). -/
theorem normalized_ids_distinct (raws : List RawItem) (provided : List String)
    (hprov : raws.map RawItem.id = provided.map some)
    (hnodup : provided.Nodup) :
    ((normalizeItems raws).map Image.id).Nodup := by
  rw [normalizeItems, normalizeAux_ids_of_provided raws provided 0 hprov]
  exact hnodup

/-- Witness for C9 at a concrete two-item request with distinct provided
ids. -/
theorem normalized_ids_distinct_witness :
    demoRaws2.map RawItem.id = ["a", "b"].map some ∧
    (["a", "b"] : List String).Nodup ∧
    ((normalizeItems demoRaws2).map Image.id).Nodup :=
  ⟨by decide, by decide,
   normalized_ids_distinct demoRaws2 ["a", "b"] (by decide) (by decide)⟩

/-- Counterexample to C9 as stated: two request entries supplying the same
id normalize to duplicate item ids — normalization never deduplicates. -/
theorem normalized_ids_distinct_counterexample :
    ¬ ((normalizeItems
        [{ id := some "x", filename := none },
         { id := some "x", filename := none }]).map Image.id).Nodup := by
  decide

/-! ## C10 — oversize photos at the vision endpoint -/

theorem visionResults_length (analyze : Nat → Photo → Json) :
    ∀ (photos : List Photo) (s : Nat),
      (visionResults analyze s photos).length = photos.length := by
  intro photos
  induction photos with
  | nil => intro s; rfl
  | cons p rest ih =>
    intro s
    by_cases h : oversizeB p = true <;> simp [visionResults, h, ih]

theorem visionResults_getElem (analyze : Nat → Photo → Json) :
    ∀ (photos : List Photo) (s i : Nat),
      (visionResults analyze s photos)[i]? =
        (photos[i]?).map fun p =>
          if oversizeB p then createFallbackAnalysis p.filename
          else analyze (s + i) p := by
  intro photos
  induction photos with
  | nil => intro s i; rfl
  | cons p rest ih =>
    intro s i
    cases i with
    | zero =>
      by_cases h : oversizeB p = true <;> simp [visionResults, h]
    | succ j =>
      have hadd : s + (j + 1) = s + 1 + j := by omega
      by_cases h : oversizeB p = true <;>
        simp only [visionResults, h, if_true, if_false, Bool.false_eq_true,
          List.getElem?_cons_succ, hadd] <;>
        exact ih (s + 1) j

theorem visionCalls_lower_bound :
    ∀ (photos : List Photo) (s : Nat), ∀ j ∈ visionCalls s photos, s ≤ j := by
  intro photos
  induction photos with
  | nil => intro s j hj; simp [visionCalls] at hj
  | cons p rest ih =>
    intro s j hj
    by_cases h : oversizeB p = true
    · simp only [visionCalls, h, if_true] at hj
      have := ih (s + 1) j hj
      omega
    · simp only [visionCalls, h, Bool.false_eq_true, if_false, List.mem_cons] at hj
      cases hj with
      | inl he => omega
      | inr hm => have := ih (s + 1) j hm; omega

theorem visionCalls_contains :
    ∀ (photos : List Photo) (s i : Nat) (hi : i < photos.length),
      (visionCalls s photos).contains (s + i) = !oversizeB photos[i] := by
  intro photos
  induction photos with
  | nil => intro s i hi; simp at hi
  | cons p rest ih =>
    intro s i hi
    cases i with
    | zero =>
      by_cases h : oversizeB p = true
      · simp only [visionCalls, h, if_true, Nat.add_zero, List.getElem_cons_zero,
          Bool.not_true]
        by_contra hc
        simp only [Bool.not_eq_false, List.contains_iff_exists_mem_beq] at hc
        obtain ⟨j, hj, hbeq⟩ := hc
        have hge := visionCalls_lower_bound rest (s + 1) j hj
        have : s = j := by exact beq_iff_eq.mp hbeq
        omega
      · simp [visionCalls, h, List.contains_cons]
    | succ j =>
      have hadd : s + (j + 1) = s + 1 + j := by omega
      have hj : j < rest.length := by simpa using hi
      by_cases h : oversizeB p = true
      · simp only [visionCalls, h, if_true, List.getElem_cons_succ, hadd]
        exact ih (s + 1) j hj
      · simp only [visionCalls, h, Bool.false_eq_true, if_false,
          List.getElem_cons_succ, hadd, List.contains_cons]
        have hne : (s + 1 + j == s) = false := by
          simp only [beq_eq_false_iff_ne, ne_eq]
          omega
        rw [hne]
        simp only [Bool.false_or]
        exact ih (s + 1) j hj

/-- C10: every photo whose extracted base64 payload exceeds 13,300,000
characters is never sent upstream (its loop index is not among the
iterations that reach the upstream call); its entry in `results` is
exactly the canned fallback analysis for its filename; it is still counted
— `results` keeps one entry per photo in request order; and sibling photos
are unaffected: each non-oversize photo's entry is whatever its own
upstream analysis resolves to (`analyze` is arbitrary), independent of the
oversize ones. -/
theorem oversize_photo_fallback (analyze : Nat → Photo → Json)
    (photos : List Photo) (i : Fin photos.length) :
    (visionResults analyze 0 photos).length = photos.length ∧
    (visionResults analyze 0 photos)[i.val]? =
      some (if oversizeB (photos.get i) then
              createFallbackAnalysis (photos.get i).filename
            else analyze i.val (photos.get i)) ∧
    (visionCalls 0 photos).contains i.val = !oversizeB (photos.get i) := by
  refine ⟨visionResults_length analyze photos 0, ?_, ?_⟩
  · have h := visionResults_getElem analyze photos 0 i.val
    rw [h]
    have hget : photos[i.val]? = some (photos.get i) := by
      simp [List.getElem?_eq_getElem i.isLt]
    rw [hget]
    simp
  · have h := visionCalls_contains photos 0 i.val i.isLt
    simpa using h

/-! ## C8 — cleaning removes fences globally

The second replacement pass (`/```\n?/g`) is a left-to-right scan; the
lemmas below show its output never contains a triple backtick: a fence in
the output would need three emitted backticks whose originals already
formed a match at the first of them. -/

theorem isPrefixOf3_decomp (c : Char) (rest : List Char)
    (hp : (['`', '`', '`'] : List Char).isPrefixOf (c :: rest) = true) :
    ∃ u, c :: rest = '`' :: '`' :: '`' :: u := by
  cases rest with
  | nil => simp [List.isPrefixOf] at hp
  | cons d r =>
    cases r with
    | nil => simp [List.isPrefixOf] at hp
    | cons e r2 =>
      simp only [List.isPrefixOf, Bool.and_eq_true, beq_iff_eq,
        List.isPrefixOf_nil_left] at hp
      obtain ⟨h1, h2, h3, -⟩ := hp
      exact ⟨r2, by rw [← h1, ← h2, ← h3]⟩

theorem strip3_head (fuel : Nat) (s : List Char)
    (h : (stripOcc '`' ['`', '`'] fuel s).head? = some '`') :
    s.head? = some '`' := by
  match fuel, s with
  | fuel, [] =>
    cases fuel <;> simp [stripOcc] at h
  | 0, c :: rest =>
    simpa [stripOcc] using h
  | fuel + 1, c :: rest =>
    by_cases hp : (['`', '`', '`'] : List Char).isPrefixOf (c :: rest) = true
    · obtain ⟨u, hu⟩ := isPrefixOf3_decomp c rest hp
      have hc : c = '`' := by
        have := congrArg List.head? hu
        simpa using this
      simp [hc]
    · simp only [stripOcc, hp, Bool.false_eq_true, if_false] at h
      simpa using h

theorem strip3_two (fuel : Nat) (s : List Char) (t : List Char)
    (h : stripOcc '`' ['`', '`'] fuel s = '`' :: '`' :: t) :
    ∃ u, s = '`' :: '`' :: u := by
  match fuel, s with
  | fuel, [] =>
    cases fuel <;> simp [stripOcc] at h
  | 0, c :: rest =>
    simp only [stripOcc] at h
    exact ⟨t, by rw [h]⟩
  | fuel + 1, c :: rest =>
    by_cases hp : (['`', '`', '`'] : List Char).isPrefixOf (c :: rest) = true
    · obtain ⟨u, hu⟩ := isPrefixOf3_decomp c rest hp
      exact ⟨'`' :: u, by rw [hu]⟩
    · simp only [stripOcc, hp, Bool.false_eq_true, if_false, List.cons.injEq] at h
      obtain ⟨hc, hrest⟩ := h
      have hhead : (stripOcc '`' ['`', '`'] fuel rest).head? = some '`' := by
        rw [hrest]; rfl
      have hr := strip3_head fuel rest hhead
      obtain ⟨u, hu⟩ : ∃ u, rest = '`' :: u := by
        cases rest with
        | nil => simp at hr
        | cons d r =>
          have hd : d = '`' := by simpa using hr
          exact ⟨r, by rw [hd]⟩
      exact ⟨u, by rw [hc, hu]⟩

theorem strip3_no_fence (fuel : Nat) :
    ∀ (s : List Char), s.length ≤ fuel →
      ¬ (['`', '`', '`'] <:+: stripOcc '`' ['`', '`'] fuel s) := by
  induction fuel with
  | zero =>
    intro s hs
    have hnil : s = [] := List.length_eq_zero.mp (Nat.le_zero.mp hs)
    subst hnil
    simp [stripOcc]
  | succ fuel ih =>
    intro s hs
    match s with
    | [] => simp [stripOcc]
    | c :: rest =>
      by_cases hp : (['`', '`', '`'] : List Char).isPrefixOf (c :: rest) = true
      · simp only [stripOcc, hp, if_true]
        apply ih
        have h1 := dropLf_length_le (rest.drop (['`', '`'] : List Char).length)
        have h2 : (rest.drop (['`', '`'] : List Char).length).length ≤ rest.length := by
          simp [List.length_drop]
        simp only [List.length_cons] at hs
        omega
      · simp only [stripOcc, hp, Bool.false_eq_true, if_false]
        intro hinf
        rcases List.infix_cons_iff.mp hinf with hpre | hinf2
        · obtain ⟨t0, ht0⟩ := hpre
          simp only [List.cons_append, List.nil_append, List.cons.injEq] at ht0
          obtain ⟨hc, hout⟩ := ht0
          obtain ⟨u, hu⟩ := strip3_two fuel rest t0 hout.symm
          apply hp
          rw [← hc, hu]
          simp [List.isPrefixOf]
        · have hlen : rest.length ≤ fuel := by
            simp only [List.length_cons] at hs
            omega
          exact ih rest hlen hinf2

theorem trimChars_within (s : List Char) : trimChars s <:+: s := by
  have h1 : s.dropWhile jsWhitespace <:+ s := List.dropWhile_suffix _
  have h2 : (s.dropWhile jsWhitespace).reverse.dropWhile jsWhitespace <:+
      (s.dropWhile jsWhitespace).reverse := List.dropWhile_suffix _
  have h3 : ((s.dropWhile jsWhitespace).reverse.dropWhile jsWhitespace).reverse <+:
      s.dropWhile jsWhitespace := by
    have hiff := @List.reverse_suffix Char
      ((s.dropWhile jsWhitespace).reverse.dropWhile jsWhitespace).reverse
      (s.dropWhile jsWhitespace)
    rw [List.reverse_reverse] at hiff
    exact hiff.mp h2
  exact List.IsInfix.trans (List.IsPrefix.isInfix h3) (List.IsSuffix.isInfix h1)

/-- The text handed to the strict parser never contains a triple-backtick
sequence: the second global replacement pass eliminates them all, and
trimming keeps a contiguous fragment of its output. -/
theorem cleanJsonString_no_fence (s : String) :
    ¬ (['`', '`', '`'] <:+: (cleanJsonString s).data) := by
  intro h
  have hdata : (cleanJsonString s).data =
      trimChars (stripOcc '`' ['`', '`']
        (replaceFence "```json" s.data).length (replaceFence "```json" s.data)) := rfl
  rw [hdata] at h
  exact strip3_no_fence (replaceFence "```json" s.data).length
    (replaceFence "```json" s.data) (Nat.le_refl _)
    (h.trans (trimChars_within _))

/-- Scanning a segment free of the pattern's head character emits it
unchanged, spending one unit of fuel per emitted character. -/
theorem stripOcc_append_no_head (p : Char) (ps : List Char) :
    ∀ (s t : List Char) (g : Nat), p ∉ s →
      stripOcc p ps (s.length + g) (s ++ t) = s ++ stripOcc p ps g t := by
  intro s
  induction s with
  | nil => intro t g hp; simp
  | cons c s0 ih =>
    intro t g hp
    have hpc : p ≠ c := by
      intro h
      exact hp (by rw [h]; exact List.mem_cons_self c s0)
    have hbeq : (p == c) = false := beq_eq_false_iff_ne.mpr hpc
    have hnp : ((p :: ps).isPrefixOf (c :: (s0 ++ t))) = false := by
      simp [List.isPrefixOf, hbeq]
    have hfuel : (c :: s0 : List Char).length + g = s0.length + g + 1 := by
      simp [List.length_cons]
      omega
    rw [List.cons_append, hfuel]
    show stripOcc p ps (s0.length + g + 1) (c :: (s0 ++ t)) =
      c :: (s0 ++ stripOcc p ps g t)
    rw [show stripOcc p ps (s0.length + g + 1) (c :: (s0 ++ t)) =
        c :: stripOcc p ps (s0.length + g) (s0 ++ t) by simp [stripOcc, hnp]]
    rw [ih t g fun hm => hp (List.mem_cons_of_mem _ hm)]

/-- Appending one trailing whitespace character does not change the
trimmed text. -/
theorem trimChars_append_ws (l : List Char) (c : Char)
    (hc : jsWhitespace c = true) :
    trimChars (l ++ [c]) = trimChars l := by
  unfold trimChars
  rw [List.dropWhile_append]
  by_cases he : (l.dropWhile jsWhitespace).isEmpty = true
  · rw [if_pos he]
    have hl : l.dropWhile jsWhitespace = [] := by
      simpa [List.isEmpty_iff] using he
    rw [hl]
    simp [List.dropWhile_cons, hc]
  · rw [if_neg he]
    rw [List.reverse_append]
    simp [List.dropWhile_cons, hc]

/-- One scan step across the leading fence `` ```json`` plus its newline:
the first pass consumes exactly those eight characters. -/
theorem stripOcc_json_fence_step (t : List Char) (f : Nat) :
    stripOcc '`' "``json".data (f + 1) ("```json\n".data ++ t) =
      stripOcc '`' "``json".data f t := by
  show stripOcc '`' "``json".data (f + 1)
      ('`' :: '`' :: '`' :: 'j' :: 's' :: 'o' :: 'n' :: '\n' :: t) = _
  simp [stripOcc, List.isPrefixOf, dropLf]

/-- A document wrapped in one leading `json`-tagged fence and one trailing
fence, whose body contains no backtick, cleans to the trimmed body: the
first pass removes the leading fence with its newline, the second pass
removes the trailing fence, and the newline left before it is trimmed. -/
theorem clean_unwraps_fence (body : List Char) (hnb : '`' ∉ body) :
    cleanJsonString (String.mk ("```json\n".data ++ body ++ "\n```".data)) =
      String.mk (trimChars body) := by
  have h1 : replaceFence "```json" ("```json\n".data ++ body ++ "\n```".data) =
      body ++ "\n```".data := by
    show stripOcc '`' "``json".data
        ("```json\n".data ++ body ++ "\n```".data).length
        ("```json\n".data ++ body ++ "\n```".data) = body ++ "\n```".data
    have hL : ("```json\n".data ++ body ++ "\n```".data).length =
        body.length + 11 + 1 := by
      simp
    rw [hL, List.append_assoc, stripOcc_json_fence_step]
    rw [stripOcc_append_no_head '`' "``json".data body "\n```".data 11 hnb]
    rw [show stripOcc '`' "``json".data 11 "\n```".data = "\n```".data by decide]
  have h2 : replaceFence "```" (body ++ "\n```".data) = body ++ ['\n'] := by
    show stripOcc '`' "``".data (body ++ "\n```".data).length
        (body ++ "\n```".data) = body ++ ['\n']
    have hL : (body ++ "\n```".data).length = body.length + 4 := by
      simp
    rw [hL, stripOcc_append_no_head '`' "``".data body "\n```".data 4 hnb]
    rw [show stripOcc '`' "``".data 4 "\n```".data = ['\n'] by decide]
  have h3 : trimChars (body ++ ['\n']) = trimChars body :=
    trimChars_append_ws body '\n' (by decide)
  show String.mk (trimChars (replaceFence "```"
      (replaceFence "```json" ("```json\n".data ++ body ++ "\n```".data)))) = _
  rw [h1, h2, h3]

/-- C8 (amended): the cleaning step removes *every* occurrence of
`` ```json `` and `` ``` `` (each with one optional following newline)
throughout the text — interior occurrences included, not only a leading
and trailing fence — and then trims; consequently the text passed to the
strict parser never contains a triple-backtick sequence. A document
wrapped in a single leading/trailing fence pair is unwrapped as the spec
intends. -/
theorem clean_strips_fences_globally :
    (∀ s : String, ¬ (['`', '`', '`'] <:+: (cleanJsonString s).data)) ∧
    (∀ body : List Char, '`' ∉ body →
      cleanJsonString (String.mk ("```json\n".data ++ body ++ "\n```".data)) =
        String.mk (trimChars body)) ∧
    cleanJsonString "```json\n\x7b\"ok\":true\x7d\n```" = "\x7b\"ok\":true\x7d" :=
  ⟨cleanJsonString_no_fence, clean_unwraps_fence, by decide⟩

/-- Counterexample to C8 as stated: a triple backtick in the *interior* of
the document (here inside a JSON string literal) is not passed to the
strict parser unchanged — the global replacement deletes it. -/
theorem interior_fence_removed_counterexample :
    cleanJsonString "\x7b\"a\":\"x```y\"\x7d" = "\x7b\"a\":\"xy\"\x7d" ∧
    cleanJsonString "\x7b\"a\":\"x```y\"\x7d" ≠ "\x7b\"a\":\"x```y\"\x7d" := by
  decide
